import Mathlib

/-!
Verification development for the `ImageUpload` React component
(`src/packages/ui/src/ImageUpload/index.js`).

The component is a single class with pure helpers (`hasExtension`, the
`handleError` text table, the data-URL rewriting in `readFile`) and a small
amount of UI state (`isUploading`, `hasError`, `errorText`, `progress`).
We embed:

* the pure helpers as Lean functions over `String` / `List Char`;
* the `setState` effects as explicit state transformers on `UploadState`;
* the control flow of `handleFileSelected` both as a pure classification
  (which validation error, if any, a selection produces) and as the list of
  observable events (callback invocations / internally raised error codes)
  one selection produces;
* the 5-second error auto-clear (`setTimeout` in `handleError`) as a timed
  model over the multiset of times at which errors were raised.

JavaScript specifics and how they are modelled:

* `String.prototype.toLowerCase` is modelled by `Char.toLower` per character,
  which is faithful on the ASCII range (the range exercised by extension
  lists and the theorems below).
* `new RegExp('(' + alts + ')$', 'i').test(s)` where `alts` is a `|`-join of
  escaped literals: such a pattern matches `s` iff one of the alternatives
  (with `\.` read back as a literal dot) is a suffix of `s`.  `hasExtension`
  below therefore splits the constructed pattern body on `|`, un-escapes
  `\.`, and tests for a suffix.  This semantics is exact for pattern bodies
  whose alternatives contain no regex metacharacters other than the escaped
  dot; the theorems about general lists carry that hypothesis.
* `String.prototype.replace` with a string pattern replaces the first
  occurrence only, and performs `$`-substitution in the replacement string:
  `$$` gives `$`, `$&` the matched text, ``$` `` the text before the match,
  `$'` the text after the match (written via their character codes 96 and 39
  below); any other `$x` is kept literally.  `jsReplaceFirst` models this.
* JS numbers appearing as error codes and file sizes are modelled as
  `Int` / `Nat`; opaque JS values crossing the callback boundary are
  modelled by `JsValue`.
-/

namespace ImageUpload

/-- A JS value as it crosses the component's callback boundary: the component
only ever inspects such values with `===` against small integer constants, so
a constructor for numbers plus an opaque-string constructor suffices. -/
inductive JsValue where
  | num (n : Int)
  | str (s : String)
  deriving DecidableEq, Repr

/-- Source line 10: `const NO_FILE_ERROR_CODE = 1`. -/
def NO_FILE_ERROR_CODE : Int := 1

/-- Source line 11: `const BAD_EXTENSION_ERROR_CODE = 2`. -/
def BAD_EXTENSION_ERROR_CODE : Int := 2

/-- Source line 12: `const TOO_BIG_ERROR_CODE = 3`. -/
def TOO_BIG_ERROR_CODE : Int := 3

/-- Source line 13: `const UPLOADING_ERROR_CODE = 4`. -/
def UPLOADING_ERROR_CODE : Int := 4

/-- The `switch (errorCode)` table of `handleError` (source lines 68-86):
the user-facing text for each error code, with a default branch. -/
def handleErrorText (errorCode : JsValue) : String :=
  if errorCode = .num NO_FILE_ERROR_CODE then "No file selected"
  else if errorCode = .num BAD_EXTENSION_ERROR_CODE then "Bad file type"
  else if errorCode = .num TOO_BIG_ERROR_CODE then "Too big"
  else if errorCode = .num UPLOADING_ERROR_CODE then "Error while uploading"
  else "Unknown error"

/-- The `.replace(/\./g, '\\.')` step of `hasExtension` (source line 64):
every `.` in the joined alternation body becomes the two characters `\` `.`. -/
def escapeDots : List Char → List Char
  | [] => []
  | c :: cs => if c = '.' then '\\' :: '.' :: escapeDots cs else c :: escapeDots cs

/-- The `.join('|')` step of `hasExtension` (source line 64). -/
def joinBar : List (List Char) → List Char
  | [] => []
  | [x] => x
  | x :: y :: tl => x ++ '|' :: joinBar (y :: tl)

/-- Decomposing a regex alternation body at its top-level `|` separators
(the inverse of `joinBar`), used to give the constructed pattern its
regex semantics. -/
def splitBar : List Char → List (List Char)
  | [] => [[]]
  | c :: cs =>
    if c = '|' then [] :: splitBar cs
    else
      match splitBar cs with
      | [] => [[c]]
      | p :: ps => (c :: p) :: ps

/-- Reading an escaped regex literal back: `\.` denotes a literal dot. -/
def unescapeDots : List Char → List Char
  | [] => []
  | '\\' :: '.' :: ds => '.' :: unescapeDots ds
  | c :: cs => c :: unescapeDots cs

/-- `toLowerCase()` on a string, as its character list (ASCII model). -/
def lowerData (s : String) : List Char := s.data.map Char.toLower

/-- The pattern string `'(' + allowedExtensions.map(lower).join('|').replace(/\./g,'\\.') + ')$'`
built by `hasExtension` (source line 64). -/
def buildPattern (allowedExtensions : List String) : String :=
  "(" ++ String.mk (escapeDots (joinBar (allowedExtensions.map lowerData))) ++ ")$"

/-- `hasExtension` (source lines 63-66).  The regex test
`new RegExp('(' + body + ')$', 'i').test(fileName.toLowerCase())` is modelled
by splitting `body` at `|`, un-escaping `\.`, and asking whether some
alternative is a suffix of the lower-cased file name (the `'i'` flag adds
nothing because the alternatives were already lower-cased on line 64). -/
def hasExtension (allowedExtensions : List String) (fileName : String) : Bool :=
  let body := escapeDots (joinBar (allowedExtensions.map lowerData))
  let alternatives := (splitBar body).map unescapeDots
  alternatives.any (fun alt => alt.isSuffixOf (lowerData fileName))

/-- Spec-side reference predicate, taken from the claim's words, to be
compared with `hasExtension`: the file name's suffix, compared
case-insensitively, matches some entry of the allowed-extensions list. -/
def suffixMatchesSpec (allowedExtensions : List String) (fileName : String) : Bool :=
  allowedExtensions.any (fun e => (lowerData e).isSuffixOf (lowerData fileName))

/-- JS `$`-substitution applied to a replacement string (ECMAScript
`GetSubstitution`): `$$` yields `$`, `$&` the matched text, ``$` `` (code 96)
the text before the match, `$'` (code 39) the text after the match, and any
other `$x` is kept as-is.  Arguments: the matched text, the text before the
match, the text after the match, then the replacement string. -/
def expandDollar (matched before after : List Char) : List Char → List Char
  | [] => []
  | '$' :: '$' :: ds => '$' :: expandDollar matched before after ds
  | '$' :: '&' :: ds => matched ++ expandDollar matched before after ds
  | '$' :: d :: ds =>
    if d = Char.ofNat 96 then before ++ expandDollar matched before after ds
    else if d = Char.ofNat 39 then after ++ expandDollar matched before after ds
    else '$' :: expandDollar matched before after (d :: ds)
  | c :: cs => c :: expandDollar matched before after cs

/-- Scan for the first occurrence of `pat`, keeping the already-scanned text
reversed in `racc`; on a match, emit the `$`-expanded replacement and stop. -/
def replaceFirstAux (racc : List Char) (s pat repl : List Char) : List Char :=
  if pat.isPrefixOf s then
    racc.reverse ++ expandDollar pat racc.reverse (s.drop pat.length) repl ++ s.drop pat.length
  else
    match s with
    | [] => racc.reverse
    | c :: cs => replaceFirstAux (c :: racc) cs pat repl

/-- JS `s.replace(pat, repl)` with a string pattern: replace the first
occurrence of `pat` (if any) by the `$`-expanded `repl`. -/
def jsReplaceFirst (s pat repl : String) : String :=
  String.mk (replaceFirstAux [] s.data pat.data repl.data)

/-- The data-URL rewriting of `readFile` (source line 129):
`dataUrl.replace(";base64", `;name=${file.name};base64`)` applied to the
platform-provided `FileReader` result. -/
def readFileDataUrl (fileName rawDataUrl : String) : String :=
  jsReplaceFirst rawDataUrl ";base64" (";name=" ++ fileName ++ ";base64")

/-- The component state (source lines 36-41). `progress` is
`number | undefined` in the source, modelled as `Option Nat`. -/
structure UploadState where
  isUploading : Bool
  hasError : Bool
  errorText : String
  progress : Option Nat
  deriving DecidableEq, Repr

/-- The constructor's initial state (source lines 48-53). -/
def initialState : UploadState :=
  { isUploading := false, hasError := false, errorText := "", progress := none }

/-- First `setState` of `handleError` (source line 88):
`{ hasError: true, errorText, isUploading: true }`. -/
def handleErrorSet (errorCode : JsValue) (s : UploadState) : UploadState :=
  { s with hasError := true, errorText := handleErrorText errorCode, isUploading := true }

/-- The `setState` callback of `handleError` (source line 88):
`() => this.setState({ isUploading: false })` — the second half of the
"flick isUploading" blip. -/
def handleErrorBlipEnd (s : UploadState) : UploadState :=
  { s with isUploading := false }

/-- Net state effect of `handleError` on `UploadState` (source line 88),
i.e. the blip composed: set error fields, then drop `isUploading` again. -/
def handleErrorState (errorCode : JsValue) (s : UploadState) : UploadState :=
  handleErrorBlipEnd (handleErrorSet errorCode s)

/-- `this.setState({ isUploading: true })` before invoking the upload
callback (source line 110). -/
def uploadStartState (s : UploadState) : UploadState :=
  { s with isUploading := true }

/-- `handleReportProgress` (source line 139): `this.setState({ progress })`. -/
def handleReportProgress (progress : Nat) (s : UploadState) : UploadState :=
  { s with progress := some progress }

/-- The upload promise's `.then` state update (source line 112):
`this.setState({ progress: undefined, isUploading: false })`. -/
def uploadThenState (s : UploadState) : UploadState :=
  { s with progress := none, isUploading := false }

/-- The upload promise's `.catch` state update (source line 115):
`this.setState({ isUploading: false })` — nothing else is touched. -/
def uploadCatchState (s : UploadState) : UploadState :=
  { s with isUploading := false }

/-- The selected file as the component reads it: `file.name` and
`file.size` (in bytes). -/
structure JsFile where
  name : String
  size : Nat
  deriving DecidableEq, Repr

/-- The props the control flow of `handleFileSelected` depends on: which of
the four optional callbacks are configured, plus the validation settings. -/
structure Config where
  hasImageLoaded : Bool
  hasImageUpload : Bool
  hasImageUploaded : Bool
  hasImageUploadError : Bool
  maxFileSize : Nat
  allowedExtensions : List String

/-- `defaultProps` (source lines 56-61): the validation-relevant defaults. -/
def defaultAllowedExtensions : List String := ["jpg", "jpeg", "png"]

/-- `defaultProps.maxFileSize` (source line 60). -/
def defaultMaxFileSize : Nat := 5242880

/-- The validation outcome of one file-selection event. -/
inductive Classification where
  | noFile
  | badExtension
  | tooBig
  | valid
  deriving DecidableEq, Repr

/-- The validation prefix of `handleFileSelected` (source lines 93-105) as a
pure classification: no file present, bad extension, too big, or valid, in
exactly the source's check order. -/
def classifySelection (allowed : List String) (maxFileSize : Nat)
    (selected : Option JsFile) : Classification :=
  match selected with
  | none => .noFile
  | some f =>
    if hasExtension allowed f.name = false then .badExtension
    else if f.size > maxFileSize then .tooBig
    else .valid

/-- The observable events one file-selection event can produce: an internal
error code handed to `handleError`, and the four callback invocations with
their payloads. -/
inductive Event where
  | errorRaised (code : Int)
  | loadedCall (name : String) (dataUrl : String)
  | uploadCall (name : String)
  | uploadedCall (resp : JsValue)
  | uploadErrorCall (err : JsValue)
  deriving DecidableEq, Repr

/-- Is the event an `imageLoaded` invocation? -/
def Event.isLoadedCall : Event → Bool
  | .loadedCall _ _ => true
  | _ => false

/-- Is the event an `imageUpload` invocation? -/
def Event.isUploadCall : Event → Bool
  | .uploadCall _ => true
  | _ => false

/-- Is the event an internally raised error (a `handleError` call)? -/
def Event.isErrorRaised : Event → Bool
  | .errorRaised _ => true
  | _ => false

/-- Is the event an `imageUploadError` invocation? -/
def Event.isUploadErrorCall : Event → Bool
  | .uploadErrorCall _ => true
  | _ => false

/-- The events produced by one `handleFileSelected` run (source lines
92-119).  `outcome` is how the upload promise settles: `none` if it never
settles, `some (.ok resp)` if it resolves, `some (.error err)` if it
rejects.  `rawDataUrl` is the platform `FileReader` result for the file;
the read promise always resolves with it (the source installs only an
`onload` handler).  The returned list fixes one interleaving of the two
independent async chains; the theorems below only use membership and
occurrence counts, which are interleaving-independent. -/
def handleFileSelectedEvents (cfg : Config) (selected : Option JsFile)
    (outcome : Option (Except JsValue JsValue)) (rawDataUrl : String) : List Event :=
  match selected with
  | none => [.errorRaised NO_FILE_ERROR_CODE]
  | some f =>
    if hasExtension cfg.allowedExtensions f.name = false then
      [.errorRaised BAD_EXTENSION_ERROR_CODE]
    else if f.size > cfg.maxFileSize then
      [.errorRaised TOO_BIG_ERROR_CODE]
    else
      (if cfg.hasImageLoaded then
        [.loadedCall f.name (readFileDataUrl f.name rawDataUrl)]
      else [])
      ++ (if cfg.hasImageUpload then
            .uploadCall f.name ::
              (match outcome with
               | none => []
               | some (.ok resp) => if cfg.hasImageUploaded then [.uploadedCall resp] else []
               | some (.error err) =>
                 if cfg.hasImageUploadError then [.uploadErrorCall err] else [])
          else [])

/-- The timed model of the error display.  `errorTimes` lists the instants
(in milliseconds) at which `handleError` ran; each run sets `hasError` at
its instant and schedules a clear exactly 5000 ms later (source lines
88-89); no timer is ever cancelled.  `hasErrorAt errorTimes t` is the value
of `hasError` at instant `t`: true iff some error was raised at `e ≤ t` and
every clear that has fired by `t` fired no later than `e` (a set and a clear
at the same instant resolve in favour of the set: the `setState` of
`handleError` runs inside its own task before a timer due at that instant). -/
def hasErrorAt (errorTimes : List Nat) (t : Nat) : Bool :=
  errorTimes.any (fun e =>
    decide (e ≤ t) && (errorTimes.map (· + 5000)).all (fun f => decide (f ≤ t → f ≤ e)))

/-- Unfolding of `classifySelection` on a present file: it returns `valid`
exactly when the extension check passes and the size is within bounds. -/
theorem classifySelection_valid_iff (allowed : List String) (maxFileSize : Nat) (f : JsFile) :
    classifySelection allowed maxFileSize (some f) = .valid ↔
      hasExtension allowed f.name = true ∧ f.size ≤ maxFileSize := by
  unfold classifySelection
  by_cases h1 : hasExtension allowed f.name = false
  · simp [h1]
  · by_cases h2 : f.size > maxFileSize
    · simp [h1, h2]
      try omega
    · simp [h1, h2]
      try omega

/-- C4: the error reporter maps every error code to user-facing text as a
total function: code 1 to "No file selected", 2 to "Bad file type", 3 to
"Too big", 4 to "Error while uploading", and every other value to
"Unknown error". -/
theorem claim_C4_handleErrorText_total :
    handleErrorText (.num 1) = "No file selected" ∧
    handleErrorText (.num 2) = "Bad file type" ∧
    handleErrorText (.num 3) = "Too big" ∧
    handleErrorText (.num 4) = "Error while uploading" ∧
    ∀ c : JsValue, c ≠ .num 1 → c ≠ .num 2 → c ≠ .num 3 → c ≠ .num 4 →
      handleErrorText c = "Unknown error" := by
  refine ⟨rfl, rfl, rfl, rfl, ?_⟩
  intro c h1 h2 h3 h4
  simp [handleErrorText, NO_FILE_ERROR_CODE, BAD_EXTENSION_ERROR_CODE,
    TOO_BIG_ERROR_CODE, UPLOADING_ERROR_CODE, h1, h2, h3, h4]

/-- Witness for C4: the default branch evaluated at two concrete non-codes. -/
theorem claim_C4_witness :
    handleErrorText (.num 0) = "Unknown error" ∧ handleErrorText (.str "x") = "Unknown error" :=
  ⟨claim_C4_handleErrorText_total.2.2.2.2 (.num 0) (by decide) (by decide) (by decide) (by decide),
   claim_C4_handleErrorText_total.2.2.2.2 (.str "x") (by decide) (by decide) (by decide)
     (by decide)⟩

/-- C2: a file whose extension passes is rejected as `tooBig` exactly when
its byte size strictly exceeds the configured maximum; at equality it is
accepted (the boundary is inclusive). -/
theorem claim_C2_size_boundary (allowed : List String) (maxFileSize : Nat) (f : JsFile)
    (hext : hasExtension allowed f.name = true) :
    (classifySelection allowed maxFileSize (some f) = .tooBig ↔ f.size > maxFileSize) ∧
    (f.size ≤ maxFileSize → classifySelection allowed maxFileSize (some f) = .valid) := by
  unfold classifySelection
  by_cases h2 : f.size > maxFileSize
  · simp [hext, h2]
  · simp [hext, h2]
    try omega

/-- Witness for C2: size 5242880 with max 5242880 is accepted; size 6000000
with max 5242880 is rejected as too big. -/
theorem claim_C2_witness :
    classifySelection ["jpg"] 5242880 (some ⟨"a.jpg", 5242880⟩) = .valid ∧
    classifySelection ["jpg"] 5242880 (some ⟨"a.jpg", 6000000⟩) = .tooBig :=
  ⟨(claim_C2_size_boundary ["jpg"] 5242880 ⟨"a.jpg", 5242880⟩ (by decide)).2 (by decide),
   (claim_C2_size_boundary ["jpg"] 5242880 ⟨"a.jpg", 6000000⟩ (by decide)).1.mpr (by decide)⟩

/-- C7: a selection event carrying no file raises exactly error code 1,
whatever the configuration and upload outcome, and invokes neither
`imageLoaded` nor `imageUpload`. -/
theorem claim_C7_noFile (cfg : Config) (outcome : Option (Except JsValue JsValue))
    (rawDataUrl : String) :
    handleFileSelectedEvents cfg none outcome rawDataUrl = [.errorRaised 1] ∧
    (handleFileSelectedEvents cfg none outcome rawDataUrl).countP Event.isLoadedCall = 0 ∧
    (handleFileSelectedEvents cfg none outcome rawDataUrl).countP Event.isUploadCall = 0 := by
  refine ⟨rfl, ?_, ?_⟩ <;> simp [handleFileSelectedEvents, Event.isLoadedCall, Event.isUploadCall]

/-- C9: with an empty allowed-extensions list the constructed pattern is
`()$`, and `hasExtension` accepts every file name. -/
theorem claim_C9_empty_allowlist (fileName : String) :
    buildPattern [] = "()$" ∧ hasExtension [] fileName = true := by
  constructor
  · rfl
  · simp [hasExtension, joinBar, escapeDots, splitBar, unescapeDots, List.isSuffixOf]

/-- C10: the rejection handler resets only `isUploading`; `progress` keeps
its last reported value (it is cleared only by the success handler), so the
stale value is still present when the next upload starts. -/
theorem claim_C10_progress_stale (s : UploadState) (p : Nat) :
    (uploadCatchState s).progress = s.progress ∧
    (uploadCatchState s).isUploading = false ∧
    (uploadCatchState s).hasError = s.hasError ∧
    (uploadCatchState s).errorText = s.errorText ∧
    (uploadThenState s).progress = none ∧
    (uploadStartState (uploadCatchState (handleReportProgress p s))).progress = some p ∧
    (uploadStartState (uploadCatchState (handleReportProgress p s))).isUploading = true :=
  ⟨rfl, rfl, rfl, rfl, rfl, rfl, rfl⟩

/-- C5: on a valid selection with both `imageLoaded` and `imageUpload`
configured, each of the two callbacks is invoked exactly once, for every
fate of the upload promise — including `outcome = none`, i.e. an upload
that never settles, which shows the `imageLoaded` invocation does not wait
on upload completion. -/
theorem claim_C5_both_callbacks_once (cfg : Config) (f : JsFile)
    (outcome : Option (Except JsValue JsValue)) (rawDataUrl : String)
    (hl : cfg.hasImageLoaded = true) (hu : cfg.hasImageUpload = true)
    (hv : classifySelection cfg.allowedExtensions cfg.maxFileSize (some f) = .valid) :
    (handleFileSelectedEvents cfg (some f) outcome rawDataUrl).countP Event.isLoadedCall = 1 ∧
    (handleFileSelectedEvents cfg (some f) outcome rawDataUrl).countP Event.isUploadCall = 1 := by
  obtain ⟨h1, h2⟩ := (classifySelection_valid_iff _ _ _).mp hv
  unfold handleFileSelectedEvents
  rcases outcome with _ | out
  · simp [h1, Nat.not_lt.mpr h2, hl, hu, Event.isLoadedCall, Event.isUploadCall]
  · rcases out with err | resp
    · by_cases hue : cfg.hasImageUploadError <;>
        simp [h1, Nat.not_lt.mpr h2, hl, hu, hue, Event.isLoadedCall, Event.isUploadCall]
    · by_cases hud : cfg.hasImageUploaded <;>
        simp [h1, Nat.not_lt.mpr h2, hl, hu, hud, Event.isLoadedCall, Event.isUploadCall]

/-- Witness for C5: default configuration flags all set, a small valid jpg,
and an upload promise that never settles. -/
theorem claim_C5_witness :
    (handleFileSelectedEvents ⟨true, true, true, true, 5242880, ["jpg", "jpeg", "png"]⟩
        (some ⟨"a.jpg", 100⟩) none "data:image/jpeg;base64,AAA").countP Event.isLoadedCall = 1 ∧
    (handleFileSelectedEvents ⟨true, true, true, true, 5242880, ["jpg", "jpeg", "png"]⟩
        (some ⟨"a.jpg", 100⟩) none "data:image/jpeg;base64,AAA").countP Event.isUploadCall = 1 :=
  claim_C5_both_callbacks_once ⟨true, true, true, true, 5242880, ["jpg", "jpeg", "png"]⟩
    ⟨"a.jpg", 100⟩ none "data:image/jpeg;base64,AAA" rfl rfl (by decide)

/-- C6: when the upload promise rejects with `v`, the `imageUploadError`
callback is invoked exactly once and with exactly `v` (not with the internal
code 4); no internal error is raised on this path, and the `.catch` state
update only resets `isUploading`, leaving `hasError`/`errorText` untouched. -/
theorem claim_C6_reject_forwarded (cfg : Config) (f : JsFile) (v : JsValue)
    (rawDataUrl : String) (s : UploadState)
    (hu : cfg.hasImageUpload = true) (he : cfg.hasImageUploadError = true)
    (hv : classifySelection cfg.allowedExtensions cfg.maxFileSize (some f) = .valid) :
    (handleFileSelectedEvents cfg (some f) (some (.error v)) rawDataUrl).count
        (.uploadErrorCall v) = 1 ∧
    (handleFileSelectedEvents cfg (some f) (some (.error v)) rawDataUrl).countP
        Event.isUploadErrorCall = 1 ∧
    (handleFileSelectedEvents cfg (some f) (some (.error v)) rawDataUrl).countP
        Event.isErrorRaised = 0 ∧
    (uploadCatchState s).isUploading = false ∧
    (uploadCatchState s).hasError = s.hasError ∧
    (uploadCatchState s).errorText = s.errorText := by
  obtain ⟨h1, h2⟩ := (classifySelection_valid_iff _ _ _).mp hv
  unfold handleFileSelectedEvents
  by_cases hl : cfg.hasImageLoaded <;>
    simp [h1, Nat.not_lt.mpr h2, hl, hu, he, uploadCatchState,
      Event.isUploadErrorCall, Event.isErrorRaised]

/-- Witness for C6: rejection value "network down" with all callbacks
configured. -/
theorem claim_C6_witness :
    (handleFileSelectedEvents ⟨true, true, true, true, 5242880, ["jpg", "jpeg", "png"]⟩
        (some ⟨"a.jpg", 100⟩) (some (.error (.str "network down")))
        "data:image/jpeg;base64,AAA").count (.uploadErrorCall (.str "network down")) = 1 ∧
    (handleFileSelectedEvents ⟨true, true, true, true, 5242880, ["jpg", "jpeg", "png"]⟩
        (some ⟨"a.jpg", 100⟩) (some (.error (.str "network down")))
        "data:image/jpeg;base64,AAA").countP Event.isErrorRaised = 0 ∧
    (uploadCatchState initialState).isUploading = false :=
  let h := claim_C6_reject_forwarded ⟨true, true, true, true, 5242880, ["jpg", "jpeg", "png"]⟩
    ⟨"a.jpg", 100⟩ (.str "network down") "data:image/jpeg;base64,AAA" initialState
    rfl rfl (by decide)
  ⟨h.1, h.2.2.1, h.2.2.2.1⟩

/-- C8 (amended): raising an error immediately sets `hasError` with the
mapped text; `hasError` then stays true for the full 5-second window
provided no other error was raised during the 5 seconds before it, and when
it is the latest error its (uncancellable) timer does clear the display at
exactly +5000 ms.  (An error raised within 5 seconds of an earlier one can
have its display cleared early by the earlier error's timer — see the
counterexample.) -/
theorem claim_C8_error_window (code : JsValue) (s : UploadState)
    (errorTimes : List Nat) (e t : Nat)
    (he : e ∈ errorTimes)
    (hiso : ∀ x ∈ errorTimes, x < e → x + 5000 ≤ e) :
    (handleErrorSet code s).hasError = true ∧
    (handleErrorSet code s).errorText = handleErrorText code ∧
    (e ≤ t → t < e + 5000 → hasErrorAt errorTimes t = true) ∧
    ((∀ x ∈ errorTimes, x ≤ e) → hasErrorAt errorTimes (e + 5000) = false) := by
  refine ⟨rfl, rfl, ?_, ?_⟩
  · intro het hte
    unfold hasErrorAt
    rw [List.any_eq_true]
    refine ⟨e, he, ?_⟩
    rw [Bool.and_eq_true]
    refine ⟨decide_eq_true het, ?_⟩
    rw [List.all_eq_true]
    intro b hb
    rw [List.mem_map] at hb
    obtain ⟨x, hx, rfl⟩ := hb
    apply decide_eq_true
    intro hxt
    by_cases hxe : x < e
    · exact hiso x hx hxe
    · omega
  · intro hlast
    unfold hasErrorAt
    rw [List.any_eq_false]
    intro a ha
    rw [Bool.and_eq_true, not_and]
    intro _
    rw [List.all_eq_true]
    push_neg
    refine ⟨e + 5000, List.mem_map.mpr ⟨e, he, rfl⟩, ?_⟩
    simp only [ne_eq, decide_eq_true_eq]
    intro hcon
    have : e + 5000 ≤ a := hcon (Nat.le_refl _)
    have : a ≤ e := hlast a ha
    omega

/-- Witness for C8: a single error at time 0 — `hasError` still shown at
2500 ms, cleared at 5000 ms. -/
theorem claim_C8_witness :
    hasErrorAt [0] 2500 = true ∧ hasErrorAt [0] 5000 = false :=
  ⟨(claim_C8_error_window (.num 1) initialState [0] 0 2500 (by decide)
      (by decide)).2.2.1 (by decide) (by decide),
   (claim_C8_error_window (.num 1) initialState [0] 0 2500 (by decide)
      (by decide)).2.2.2 (by decide)⟩

/-- Counterexample for C8 as stated: errors raised at 0 ms and 3000 ms; at
5000 ms — strictly inside the second error's 5-second window — `hasError`
is already false, because the first error's timer (which nothing cancels)
cleared the display. -/
theorem claim_C8_counterexample :
    3000 ∈ [0, 3000] ∧ (3000 : Nat) ≤ 5000 ∧ (5000 : Nat) < 3000 + 5000 ∧
    hasErrorAt [0, 3000] 5000 = false := by
  decide

/-- A replacement string without `$` is emitted verbatim by the
`$`-substitution. -/
theorem expandDollar_cons_ne (m b a : List Char) (c : Char) (cs : List Char) (hc : c ≠ '$') :
    expandDollar m b a (c :: cs) = c :: expandDollar m b a cs := by
  cases cs with
  | nil => simp [expandDollar, hc]
  | cons d ds => simp [expandDollar, hc]

/-- `$`-substitution is the identity on replacement strings that contain no
`$` character. -/
theorem expandDollar_of_not_dollar (m b a : List Char) (repl : List Char) (h : '$' ∉ repl) :
    expandDollar m b a repl = repl := by
  induction repl with
  | nil => rfl
  | cons c cs ih =>
    have hc : c ≠ '$' := fun hce => h (hce ▸ List.mem_cons_self _ _)
    have hcs : '$' ∉ cs := fun hm => h (List.mem_cons_of_mem _ hm)
    rw [expandDollar_cons_ne m b a c cs hc, ih hcs]

/-- The scan of `replaceFirstAux` on a string decomposed around its first
occurrence of the pattern: everything before the earliest occurrence is kept,
the occurrence is replaced by the (dollar-free) replacement, and the rest is
kept.  `hmin` says no occurrence starts before `pre` ends. -/
theorem replaceFirstAux_append (pre : List Char) (racc pat post repl : List Char)
    (hdollar : '$' ∉ repl)
    (hmin : ∀ i < pre.length, pat.isPrefixOf ((pre ++ pat ++ post).drop i) = false) :
    replaceFirstAux racc (pre ++ pat ++ post) pat repl =
      racc.reverse ++ pre ++ repl ++ post := by
  induction pre generalizing racc with
  | nil =>
    have hpre : pat.isPrefixOf (pat ++ post) = true := by
      rw [List.isPrefixOf_iff_prefix]
      exact List.prefix_append _ _
    unfold replaceFirstAux
    simp only [List.nil_append, hpre, if_true]
    rw [List.drop_left, expandDollar_of_not_dollar _ _ _ _ hdollar]
    simp
  | cons c pre ih =>
    have h0 : pat.isPrefixOf ((c :: pre) ++ pat ++ post) = false := by
      have := hmin 0 (by simp)
      simpa using this
    unfold replaceFirstAux
    rw [h0]
    simp only [Bool.false_eq_true, if_false, List.cons_append]
    rw [ih (c :: racc) ?_]
    · simp
    · intro i hi
      have := hmin (i + 1) (by simpa using Nat.succ_lt_succ hi)
      simpa using this

/-- C3 (amended): for every source file name not containing the character
`$` and every data URL containing the marker `;base64`, the produced data
URL equals the input with its first `;base64` replaced by
`;name=<filename>;base64`.  (`pre`/`post` decompose the input around the
first occurrence of the marker; `hfirst` states no occurrence starts
earlier.)  Names containing `$` are altered by JS replacement-pattern
substitution — see the counterexample. -/
theorem claim_C3_dataUrl_rewrite (fileName rawDataUrl : String) (pre post : List Char)
    (hname : '$' ∉ fileName.data)
    (hsplit : rawDataUrl.data = pre ++ (";base64" : String).data ++ post)
    (hfirst : ∀ i < pre.length,
      (";base64" : String).data.isPrefixOf (rawDataUrl.data.drop i) = false) :
    (readFileDataUrl fileName rawDataUrl).data =
      pre ++ (";name=" ++ fileName ++ ";base64").data ++ post := by
  have hd : '$' ∉ (";name=" ++ fileName ++ ";base64").data := by
    simp only [String.data_append]
    intro hmem
    rcases List.mem_append.mp hmem with h | h
    · rcases List.mem_append.mp h with h | h
      · exact absurd h (by decide)
      · exact hname h
    · exact absurd h (by decide)
  show replaceFirstAux [] rawDataUrl.data (";base64" : String).data
      (";name=" ++ fileName ++ ";base64").data = _
  rw [hsplit]
  rw [replaceFirstAux_append pre [] (";base64" : String).data post _ hd ?_]
  · simp
  · intro i hi
    have := hfirst i hi
    rwa [hsplit] at this

/-- Witness for C3: the claim's own concrete example, name `cat.png` and
payload `data:image/png;base64,AAA`. -/
theorem claim_C3_witness :
    (readFileDataUrl "cat.png" "data:image/png;base64,AAA").data =
      ("data:image/png" : String).data ++ (";name=" ++ "cat.png" ++ ";base64").data ++
        (",AAA" : String).data ∧
    readFileDataUrl "cat.png" "data:image/png;base64,AAA" =
      "data:image/png;name=cat.png;base64,AAA" :=
  ⟨claim_C3_dataUrl_rewrite "cat.png" "data:image/png;base64,AAA"
      ("data:image/png" : String).data (",AAA" : String).data
      (by decide) (by decide) (by decide),
   by decide⟩

/-- Counterexample for C3 as stated: a file named `$$`.  JS `replace`
expands `$$` in the replacement string to a single `$`, so the result is
not the input with `;base64` replaced by `;name=$$;base64`. -/
theorem claim_C3_counterexample :
    readFileDataUrl "$$" "data:image/png;base64,AAA" = "data:image/png;name=$;base64,AAA" ∧
    readFileDataUrl "$$" "data:image/png;base64,AAA" ≠ "data:image/png;name=$$;base64,AAA" := by
  decide

/-- `Char.ofNat` below the surrogate range decodes to the same code point. -/
theorem toNat_charOfNat {n : Nat} (h : n < 55296) : (Char.ofNat n).toNat = n := by
  unfold Char.ofNat
  rw [dif_pos (Or.inl h)]
  simp [Char.ofNatAux, Char.toNat, UInt32.toNat]

/-- Lower-casing a character that is an ASCII letter, digit or dot never
produces `|` or `\` (the two characters the regex construction treats
specially). -/
theorem plainChar_toLower_ne (c : Char) (h : (c.isAlphanum || c = '.') = true) :
    Char.toLower c ≠ '|' ∧ Char.toLower c ≠ '\\' := by
  unfold Char.toLower
  by_cases hr : c.toNat ≥ 65 ∧ c.toNat ≤ 90
  · rw [if_pos hr]
    have h1 : (Char.ofNat (c.toNat + 32)).toNat = c.toNat + 32 := toNat_charOfNat (by omega)
    constructor <;> intro hco <;> have h2 := congrArg Char.toNat hco <;> rw [h1] at h2
    · have h3 : c.toNat + 32 = 124 := h2.trans (by decide)
      omega
    · have h3 : c.toNat + 32 = 92 := h2.trans (by decide)
      omega
  · rw [if_neg hr]
    constructor <;> intro hco <;> subst hco <;> revert h <;> decide

/-- Dot-escaping distributes over concatenation. -/
theorem escapeDots_append (xs ys : List Char) :
    escapeDots (xs ++ ys) = escapeDots xs ++ escapeDots ys := by
  induction xs with
  | nil => rfl
  | cons c cs ih =>
    by_cases hc : c = '.' <;> simp [escapeDots, hc, ih]

/-- Dot-escaping never introduces a `|`. -/
theorem bar_not_mem_escapeDots (xs : List Char) (h : '|' ∉ xs) : '|' ∉ escapeDots xs := by
  induction xs with
  | nil => simp [escapeDots]
  | cons c cs ih =>
    have hc : c ≠ '|' := fun hce => h (hce ▸ List.mem_cons_self _ _)
    have hcs : '|' ∉ cs := fun hm => h (List.mem_cons_of_mem _ hm)
    by_cases hdot : c = '.' <;> simp [escapeDots, hdot, ih hcs]
    exact fun hh => hc hh.symm

/-- A `|`-free chunk splits into itself alone. -/
theorem splitBar_no_bar (xs : List Char) (h : '|' ∉ xs) : splitBar xs = [xs] := by
  induction xs with
  | nil => rfl
  | cons c cs ih =>
    have hc : c ≠ '|' := fun hce => h (hce ▸ List.mem_cons_self _ _)
    have hcs : '|' ∉ cs := fun hm => h (List.mem_cons_of_mem _ hm)
    simp [splitBar, hc, ih hcs]

/-- Splitting at the first separator after a `|`-free chunk. -/
theorem splitBar_append_bar (xs ys : List Char) (h : '|' ∉ xs) :
    splitBar (xs ++ '|' :: ys) = xs :: splitBar ys := by
  induction xs with
  | nil => simp [splitBar]
  | cons c cs ih =>
    have hc : c ≠ '|' := fun hce => h (hce ▸ List.mem_cons_self _ _)
    have hcs : '|' ∉ cs := fun hm => h (List.mem_cons_of_mem _ hm)
    simp [splitBar, hc, ih hcs]

/-- Dot-escaping commutes with the `|`-join (the separator is not a dot). -/
theorem escapeDots_joinBar (ls : List (List Char)) :
    escapeDots (joinBar ls) = joinBar (ls.map escapeDots) := by
  induction ls with
  | nil => rfl
  | cons x tl ih =>
    cases tl with
    | nil => rfl
    | cons y tl2 =>
      simp only [joinBar, List.map_cons, escapeDots_append]
      rw [show escapeDots ('|' :: joinBar (y :: tl2)) = '|' :: escapeDots (joinBar (y :: tl2)) by
        simp [escapeDots]]
      rw [ih]
      simp [joinBar]

/-- Splitting a `|`-join of `|`-free chunks recovers the chunks. -/
theorem splitBar_joinBar (ls : List (List Char)) (hne : ls ≠ [])
    (hbar : ∀ x ∈ ls, '|' ∉ x) : splitBar (joinBar ls) = ls := by
  induction ls with
  | nil => exact absurd rfl hne
  | cons x tl ih =>
    cases tl with
    | nil =>
      simp only [joinBar]
      exact splitBar_no_bar x (hbar x (List.mem_cons_self _ _))
    | cons y tl2 =>
      simp only [joinBar]
      rw [splitBar_append_bar _ _ (hbar x (List.mem_cons_self _ _))]
      rw [ih (by simp) (fun z hz => hbar z (List.mem_cons_of_mem _ hz))]

/-- Un-escaping steps over an ordinary (non-backslash) character. -/
theorem unescapeDots_cons_ne (c : Char) (cs : List Char) (hc : c ≠ '\\') :
    unescapeDots (c :: cs) = c :: unescapeDots cs := by
  cases cs with
  | nil => simp [unescapeDots, hc]
  | cons d ds => simp [unescapeDots, hc]

/-- Un-escaping resolves a leading `\.` to a literal dot. -/
theorem unescapeDots_bs_dot (l : List Char) :
    unescapeDots ('\\' :: '.' :: l) = '.' :: unescapeDots l := by
  simp [unescapeDots]

/-- Un-escaping inverts dot-escaping on backslash-free input. -/
theorem unescapeDots_escapeDots (xs : List Char) (h : '\\' ∉ xs) :
    unescapeDots (escapeDots xs) = xs := by
  induction xs with
  | nil => rfl
  | cons c cs ih =>
    have hc : c ≠ '\\' := fun hce => h (hce ▸ List.mem_cons_self _ _)
    have hcs : '\\' ∉ cs := fun hm => h (List.mem_cons_of_mem _ hm)
    by_cases hdot : c = '.'
    · subst hdot
      have he : escapeDots ('.' :: cs) = '\\' :: '.' :: escapeDots cs := by simp [escapeDots]
      rw [he, unescapeDots_bs_dot, ih hcs]
    · have he : escapeDots (c :: cs) = c :: escapeDots cs := by simp [escapeDots, hdot]
      rw [he, unescapeDots_cons_ne c _ hc, ih hcs]

/-- For a nonempty allow-list of plain entries (ASCII letters, digits,
dots), the alternatives of the constructed pattern are exactly the
lower-cased entries. -/
theorem hasExtension_alternatives (L : List String) (hne : L ≠ [])
    (hplain : ∀ e ∈ L, ∀ c ∈ e.data, (c.isAlphanum || c = '.') = true) :
    (splitBar (escapeDots (joinBar (L.map lowerData)))).map unescapeDots = L.map lowerData := by
  have hnb : ∀ x ∈ L.map lowerData, '|' ∉ x ∧ '\\' ∉ x := by
    intro x hx
    rw [List.mem_map] at hx
    obtain ⟨e, he, rfl⟩ := hx
    constructor <;> intro hmem <;> rw [lowerData, List.mem_map] at hmem <;>
      obtain ⟨c, hcmem, hlow⟩ := hmem
    · exact (plainChar_toLower_ne c (hplain e he c hcmem)).1 hlow
    · exact (plainChar_toLower_ne c (hplain e he c hcmem)).2 hlow
  rw [escapeDots_joinBar]
  rw [splitBar_joinBar (List.map escapeDots (L.map lowerData))
    (by simp [hne]) (by
      intro x hx
      rw [List.mem_map] at hx
      obtain ⟨y, hy, rfl⟩ := hx
      exact bar_not_mem_escapeDots y (hnb y hy).1)]
  rw [List.map_map]
  have hpt : ∀ x ∈ L.map lowerData, (unescapeDots ∘ escapeDots) x = id x := by
    intro x hx
    exact unescapeDots_escapeDots x (hnb x hx).2
  rw [List.map_congr_left hpt, List.map_id]

/-- `any` over a mapped list tests the composite predicate. -/
theorem any_map_comp {α β : Type} (l : List α) (g : α → β) (p : β → Bool) :
    (l.map g).any p = l.any (fun e => p (g e)) := by
  induction l with
  | nil => rfl
  | cons x xs ih => simp [ih]

/-- C1 (amended): for every nonempty allowed-extensions list whose entries
consist only of ASCII letters, digits and dots, `hasExtension` accepts a
file name iff the file name's suffix, compared case-insensitively, matches
some entry; and a present file is classified `badExtension` (error code 2)
iff that suffix match fails.  The empty list (whose pattern `()$` accepts
everything — see the counterexample and C9) and entries containing regex
metacharacters such as `|` are not covered by the equivalence. -/
theorem claim_C1_extension_iff_suffix (L : List String) (F : String) (M sz : Nat)
    (hne : L ≠ [])
    (hplain : ∀ e ∈ L, ∀ c ∈ e.data, (c.isAlphanum || c = '.') = true) :
    hasExtension L F = suffixMatchesSpec L F ∧
    (classifySelection L M (some ⟨F, sz⟩) = .badExtension ↔ suffixMatchesSpec L F = false) := by
  have hmain : hasExtension L F = suffixMatchesSpec L F := by
    simp only [hasExtension, suffixMatchesSpec]
    rw [hasExtension_alternatives L hne hplain, any_map_comp]
  refine ⟨hmain, ?_⟩
  unfold classifySelection
  cases hsv : suffixMatchesSpec L F
  · simp [hmain, hsv]
  · by_cases h2 : sz > M <;> simp [hmain, hsv, h2]

/-- Witness for C1: with the list `["jpg", "png"]`, `Photo.PNG` is accepted
and `photo.gif` is classified `badExtension`. -/
theorem claim_C1_witness :
    hasExtension ["jpg", "png"] "Photo.PNG" = suffixMatchesSpec ["jpg", "png"] "Photo.PNG" ∧
    hasExtension ["jpg", "png"] "Photo.PNG" = true ∧
    classifySelection ["jpg", "png"] 5242880 (some ⟨"photo.gif", 10⟩) = .badExtension :=
  ⟨(claim_C1_extension_iff_suffix ["jpg", "png"] "Photo.PNG" 5242880 10
      (by decide) (by decide)).1,
   by decide,
   (claim_C1_extension_iff_suffix ["jpg", "png"] "photo.gif" 5242880 10
      (by decide) (by decide)).2.mpr (by decide)⟩

/-- Counterexample for C1 as stated: with the empty allowed-extensions list
the constructed pattern is `()$`, which accepts every file name even though
no entry suffix-matches, so accepts-iff-some-entry-matches fails. -/
theorem claim_C1_counterexample :
    hasExtension [] "photo.gif" = true ∧ suffixMatchesSpec [] "photo.gif" = false := by
  decide

end ImageUpload
